import Mathlib

/-!
Verification of the tile-based dirty-region video compositor in
`src/basilisk/video_esp32.cpp`.

The C code is shallowly embedded: byte buffers become functions `Nat → Nat`
(byte index to byte value), the 32-bit dirty bitmap words become a function
`Nat → Nat` from word index to word value, and each C function is
transliterated into a Lean definition of the same name.  Machine integers
are modelled as `Nat` with explicit `% 2 ^ 32` where uint32 overflow can
occur.
-/

namespace VideoESP32

/-- Display/tile geometry constants from video_esp32.cpp lines 62-83. -/
def MAC_SCREEN_WIDTH : Nat := 640

def MAC_SCREEN_HEIGHT : Nat := 360

def PIXEL_SCALE : Nat := 2

def TILE_WIDTH : Nat := 40

def TILE_HEIGHT : Nat := 40

def TILES_X : Nat := 16

def TILES_Y : Nat := 9

def TOTAL_TILES : Nat := TILES_X * TILES_Y

def DIRTY_THRESHOLD_PERCENT : Nat := 80

/-- Color depths supported by the compositor (`video_depth` values used here). -/
inductive VDepth where
  | onebit
  | twobit
  | fourbit
  | eightbit
deriving DecidableEq, Repr

/-- Pixels per byte for each depth, as set by `updateVideoStateCache`
(video_esp32.cpp lines 232-259). -/
def pixelsPerByte : VDepth → Nat
  | .onebit => 8
  | .twobit => 4
  | .fourbit => 2
  | .eightbit => 1

/-- Bytes per row for each depth at the fixed 640-pixel width, as configured
by `VideoInit` via `TrivialBytesPerRow` (video_esp32.cpp lines 1606-1628:
80, 160, 320, 640 bytes). -/
def bytesPerRow : VDepth → Nat
  | .onebit => 80
  | .twobit => 160
  | .fourbit => 320
  | .eightbit => 640

/-- `decodePackedRow` (video_esp32.cpp lines 408-444): decode `width` packed
pixels of a source row into a list of 8-bit palette indices.  Each `dst[x]`
is transliterated from the per-depth loop body; the 8-bit case is the
`memcpy` of `width` bytes. -/
def decodePackedRow (src : Nat → Nat) (width : Nat) (depth : VDepth) : List Nat :=
  match depth with
  | .onebit =>
      (List.range width).map (fun x => src (x / 8) / 2 ^ (7 - x % 8) % 2)
  | .twobit =>
      (List.range width).map (fun x => src (x / 4) / 2 ^ (6 - x % 4 * 2) % 4)
  | .fourbit =>
      (List.range width).map (fun x => src (x / 2) / 2 ^ (if x % 2 = 0 then 4 else 0) % 16)
  | .eightbit =>
      (List.range width).map (fun x => src x)

/-- `getPackedPixel` (video_esp32.cpp lines 457-481): single-pixel point query
into the packed framebuffer; `row = fb + y * bpr`. -/
def getPackedPixel (fb : Nat → Nat) (x y bpr : Nat) (depth : VDepth) : Nat :=
  let row : Nat → Nat := fun i => fb (y * bpr + i)
  match depth with
  | .onebit => row (x / 8) / 2 ^ (7 - x % 8) % 2
  | .twobit => row (x / 4) / 2 ^ (6 - x % 4 * 2) % 4
  | .fourbit => row (x / 2) / 2 ^ (if x % 2 = 0 then 4 else 0) % 16
  | .eightbit => row x

/-- Per-pixel decode step of `snapshotTile` (video_esp32.cpp lines 910-965):
the value written through `*dst++` for tile-local coordinates (row, x).
The 8-bit branch is the `memcpy` of the tile row; packed branches are the
inner `switch` on the depth with `pixel_x = src_start_x + x`. -/
def snapshotTilePixel (src : Nat → Nat) (tile_x tile_y bpr : Nat) (depth : VDepth)
    (row x : Nat) : Nat :=
  let src_start_x := tile_x * TILE_WIDTH
  let src_start_y := tile_y * TILE_HEIGHT
  match depth with
  | .eightbit => src ((src_start_y + row) * bpr + src_start_x + x)
  | .onebit =>
      let pixel_x := src_start_x + x
      src ((src_start_y + row) * bpr + pixel_x / 8) / 2 ^ (7 - pixel_x % 8) % 2
  | .twobit =>
      let pixel_x := src_start_x + x
      src ((src_start_y + row) * bpr + pixel_x / 4) / 2 ^ (6 - pixel_x % 4 * 2) % 4
  | .fourbit =>
      let pixel_x := src_start_x + x
      src ((src_start_y + row) * bpr + pixel_x / 2) / 2 ^ (if pixel_x % 2 = 0 then 4 else 0) % 16

/-- `snapshotTile` output buffer: the rows-outer, x-inner double loop writes
sequentially through `*dst++`, so cell `row * TILE_WIDTH + x` receives
`snapshotTilePixel ... row x`. -/
def snapshotTile (src : Nat → Nat) (tile_x tile_y bpr : Nat) (depth : VDepth) : List Nat :=
  (List.range (TILE_HEIGHT * TILE_WIDTH)).map
    (fun k => snapshotTilePixel src tile_x tile_y bpr depth (k / TILE_WIDTH) (k % TILE_WIDTH))

/-- The dirty-tile bitmaps (`dirty_tiles`, `write_dirty_tiles`): a map from
32-bit word index to word value.  `(TOTAL_TILES + 31) / 32 = 5` words are
meaningful. -/
def Bitmap : Type := Nat → Nat

/-- `frame_buffer_size` as set by `VideoInit` (video_esp32.cpp line 1528):
640 * 360 bytes, allocated once at the 8-bit size. -/
def frame_buffer_size : Nat := MAC_SCREEN_WIDTH * MAC_SCREEN_HEIGHT

/-- The all-clean accumulator (all words zero). -/
def emptyBitmap : Bitmap := fun _ => 0

/-- One atomic-OR mark of a tile bit:
`write_dirty_tiles[tile_idx / 32] |= 1u << (tile_idx % 32)`
(video_esp32.cpp line 623). -/
def markTile (bm : Bitmap) (tile_idx : Nat) : Bitmap :=
  fun w => if w = tile_idx / 32 then bm (tile_idx / 32) ||| 2 ^ (tile_idx % 32) else bm w

/-- The guarded mark in `VideoMarkDirtyOffset`'s loop body:
`if (tile_idx < TOTAL_TILES) { atomic or }` (video_esp32.cpp lines 620-625). -/
def markTileGuarded (bm : Bitmap) (tile_idx : Nat) : Bitmap :=
  if tile_idx < TOTAL_TILES then markTile bm tile_idx else bm

/-- Reading one tile's dirty bit from a bitmap, as `isTileDirty`
(video_esp32.cpp lines 576-579) does on `dirty_tiles`. -/
def tileBit (bm : Bitmap) (t : Nat) : Bool := (bm (t / 32)).testBit (t % 32)

/-- `VideoMarkDirtyOffset` (video_esp32.cpp lines 590-626), parameterised by
the module state it reads: `use_write_dirty_tracking`, `frame_buffer_size`,
`current_bytes_per_row`, `current_pixels_per_byte`, and the write-dirty
bitmap it mutates.  The C code reassigns `pixel_end` when clamping; here the
clamped value is named `pixel_end_c`. -/
def VideoMarkDirtyOffset (tracking : Bool) (fbsize bpr ppb offset : Nat)
    (bm : Bitmap) : Bitmap :=
  if !tracking then bm
  else if fbsize ≤ offset then bm
  else
    let y := offset / bpr
    if MAC_SCREEN_HEIGHT ≤ y then bm
    else
      let byte_in_row := offset % bpr
      let pixel_start := byte_in_row * ppb
      let pixel_end := pixel_start + ppb - 1
      if MAC_SCREEN_WIDTH ≤ pixel_start then bm
      else
        let pixel_end_c := if MAC_SCREEN_WIDTH ≤ pixel_end then MAC_SCREEN_WIDTH - 1 else pixel_end
        let tile_x_start := pixel_start / TILE_WIDTH
        let tile_x_end := pixel_end_c / TILE_WIDTH
        let tile_y := y / TILE_HEIGHT
        (List.range (tile_x_end + 1 - tile_x_start)).foldl
          (fun b i => markTileGuarded b (tile_y * TILES_X + (tile_x_start + i))) bm

/-- `VideoMarkDirtyRange` (video_esp32.cpp lines 638-699).  `offset` and
`size` are uint32, so `offset + size` and `offset + size - 1` are computed
modulo `2 ^ 32`; the C code reassigns `size`, `pixel_col_start` and
`pixel_col_end`, modelled by shadowing lets.  The final nested loops mark
`tile_idx = tile_y * TILES_X + tile_x` without a bounds guard (the clamps on
`tile_x_end` / `tile_y_end` play that role). -/
def VideoMarkDirtyRange (tracking : Bool) (fbsize bpr ppb offset size : Nat)
    (bm : Bitmap) : Bitmap :=
  if !tracking then bm
  else if fbsize ≤ offset then bm
  else
    let size := if fbsize < (offset + size) % 2 ^ 32 then fbsize - offset else size
    let last := (offset + size + (2 ^ 32 - 1)) % 2 ^ 32
    let start_y := offset / bpr
    let end_y := last / bpr
    if end_y = start_y ∧ size ≤ 4 then
      let bm1 := VideoMarkDirtyOffset tracking fbsize bpr ppb offset bm
      if 1 < size then VideoMarkDirtyOffset tracking fbsize bpr ppb (offset + size - 1) bm1
      else bm1
    else
      let start_byte_in_row := offset % bpr
      let end_byte_in_row := last % bpr
      let pixel_col_start := start_byte_in_row * ppb
      let pixel_col_end := (end_byte_in_row + 1) * ppb - 1
      let pixel_col_start := if start_y < end_y then 0 else pixel_col_start
      let pixel_col_end := if start_y < end_y then MAC_SCREEN_WIDTH - 1 else pixel_col_end
      let tile_x_start := pixel_col_start / TILE_WIDTH
      let tile_x_end0 := pixel_col_end / TILE_WIDTH
      let tile_x_end := if TILES_X ≤ tile_x_end0 then TILES_X - 1 else tile_x_end0
      let tile_y_start := start_y / TILE_HEIGHT
      let tile_y_end0 := end_y / TILE_HEIGHT
      let tile_y_end := if TILES_Y ≤ tile_y_end0 then TILES_Y - 1 else tile_y_end0
      (List.range (tile_y_end + 1 - tile_y_start)).foldl
        (fun b j =>
          (List.range (tile_x_end + 1 - tile_x_start)).foldl
            (fun b2 i => markTile b2 ((tile_y_start + j) * TILES_X + (tile_x_start + i))) b)
        bm

/-- The number of 32-bit words in the dirty bitmaps:
`(TOTAL_TILES + 31) / 32`. -/
def DIRTY_WORDS : Nat := (TOTAL_TILES + 31) / 32

/-- The popcount loop of `collectWriteDirtyTiles` (video_esp32.cpp lines
717-720): `while (bits) { count += bits & 1; bits >>= 1; }`. -/
def popcount : Nat → Nat
  | 0 => 0
  | n + 1 => (n + 1) % 2 + popcount ((n + 1) / 2)
decreasing_by exact Nat.div_lt_self (Nat.succ_pos n) (by omega)

/-- The dirty-tracking module state: the producer-side accumulator
`write_dirty_tiles` and the consumer-side render bitmap `dirty_tiles`. -/
structure TrackerState where
  write_dirty_tiles : Bitmap
  dirty_tiles : Bitmap

/-- `collectWriteDirtyTiles` (video_esp32.cpp lines 706-724): for each word,
atomically exchange the accumulator word with 0, store it into
`dirty_tiles`, and add its popcount to the running count. -/
def collectWriteDirtyTiles (st : TrackerState) : Nat × TrackerState :=
  (List.range DIRTY_WORDS).foldl
    (fun acc i =>
      let bits := acc.2.write_dirty_tiles i
      (acc.1 + popcount bits,
        { write_dirty_tiles := fun w => if w = i then 0 else acc.2.write_dirty_tiles w,
          dirty_tiles := fun w => if w = i then bits else acc.2.dirty_tiles w }))
    (0, st)

/-- The tile indices rendered and pushed by `renderAndPushDirtyTiles`
(video_esp32.cpp lines 1043-1086): the ty-outer / tx-inner loops visit
`tile_idx = ty * TILES_X + tx` in increasing order and process exactly those
with `isTileDirty(tile_idx)`. -/
def renderAndPushDirtyTiles (dirty : Bitmap) : List Nat :=
  (List.range TILES_Y).flatMap (fun ty =>
    (List.range TILES_X).filterMap (fun tx =>
      let tile_idx := ty * TILES_X + tx
      if tileBit dirty tile_idx then some tile_idx else none))

/-- Scheduler-visible module state: the sticky `force_full_update` flag and
the two dirty bitmaps. -/
structure SchedState where
  force_full_update : Bool
  tracker : TrackerState

/-- Observable outcome of one pass of the `videoRenderTaskOptimized` loop
body (video_esp32.cpp lines 1392-1500). -/
inductive RenderOutcome where
  | noCycle
  | fullUpdate
  | tileUpdate (pushed : List Nat)
  | skipped
deriving DecidableEq

/-- One iteration of the `videoRenderTaskOptimized` loop (video_esp32.cpp
lines 1392-1500) with `use_write_dirty_tracking` at its initialized value
`true`.  `rate_limited` models `should_render && elapsed < min_frame_ticks`
(the `continue` at line 1407).  If `force_full_update` is set,
`collectWriteDirtyTiles` is not executed; a full update clears the flag
(line 1477); otherwise the drained count is compared against
`TOTAL_TILES * DIRTY_THRESHOLD_PERCENT / 100` and the cycle picks full,
tile, or skip. -/
def videoCycleWriteTracking (rate_limited : Bool) (st : SchedState) :
    RenderOutcome × SchedState :=
  if rate_limited then (.noCycle, st)
  else if st.force_full_update then
    (.fullUpdate, { force_full_update := false, tracker := st.tracker })
  else
    let res := collectWriteDirtyTiles st.tracker
    let dirty_threshold := TOTAL_TILES * DIRTY_THRESHOLD_PERCENT / 100
    if dirty_threshold < res.1 then
      (.fullUpdate, { force_full_update := false, tracker := res.2 })
    else if 0 < res.1 then
      (.tileUpdate (renderAndPushDirtyTiles res.2.dirty_tiles),
        { force_full_update := false, tracker := res.2 })
    else
      (.skipped, { force_full_update := false, tracker := res.2 })

/-- `rgb888_to_rgb565` (video_esp32.cpp lines 188-192): shifts and ors on
promoted ints, truncated to uint16 on return. -/
def rgb888_to_rgb565 (r g b : Nat) : Nat :=
  ((r / 8 * 8 ||| g / 32) ||| ((g / 4 * 32 ||| b / 8) * 256)) % 2 ^ 16

/-- `ESP32_monitor_desc::set_palette` (video_esp32.cpp lines 201-216):
overwrite the first `min num 256` palette entries from the RGB888 triples,
then set `force_full_update = true`.  Returns the new palette table and the
new scheduler state. -/
def set_palette (pal : Nat → Nat) (num : Nat) (palette : Nat → Nat) (st : SchedState) :
    (Nat → Nat) × SchedState :=
  (fun i =>
      if i < num ∧ i < 256 then
        rgb888_to_rgb565 (pal (i * 3 + 0)) (pal (i * 3 + 1)) (pal (i * 3 + 2))
      else palette i,
    { force_full_update := true, tracker := st.tracker })

/-- One 4-pixel group of `renderTileFromSnapshot` (video_esp32.cpp lines
990-1015): a 32-bit little-endian wide read of 4 snapshot bytes at
`row * TILE_WIDTH + 4 * g`, palette lookup of each byte, and the 8
doubled output pixels written to one destination row. -/
def renderGroupPixels (snapshot local_palette : Nat → Nat) (row g : Nat) : List Nat :=
  let k := row * TILE_WIDTH + 4 * g
  let src4 := snapshot k + 256 * snapshot (k + 1) + 65536 * snapshot (k + 2)
      + 16777216 * snapshot (k + 3)
  let c0 := local_palette (src4 % 256)
  let c1 := local_palette (src4 / 256 % 256)
  let c2 := local_palette (src4 / 65536 % 256)
  let c3 := local_palette (src4 / 16777216 % 256)
  [c0, c0, c1, c1, c2, c2, c3, c3]

/-- One output row of `renderTileFromSnapshot`: the wide-read loop runs for
`x = 0, 4, ..., 36` (the remainder loop is vacuous since
`TILE_WIDTH = 40` is divisible by 4), each group writing 8 consecutive
output pixels. -/
def renderRowPixels (snapshot local_palette : Nat → Nat) (row : Nat) : List Nat :=
  (List.range (TILE_WIDTH / 4)).flatMap (renderGroupPixels snapshot local_palette row)

/-- `renderTileFromSnapshot` (video_esp32.cpp lines 975-1029) as the final
contents of the output buffer: for each source row, `dst_row0` (offsets
`row * 160 .. row * 160 + 79`) and `dst_row1` (offsets
`row * 160 + 80 .. row * 160 + 159`) receive the same 80 doubled pixels,
and `out` advances by two scaled rows per source row. -/
def renderTileFromSnapshot (snapshot local_palette : Nat → Nat) : List Nat :=
  (List.range TILE_HEIGHT).flatMap
    (fun row => renderRowPixels snapshot local_palette row
      ++ renderRowPixels snapshot local_palette row)

/-- Allocation-dependent control flow of `VideoInit` (video_esp32.cpp lines
1509-1669).  Each flag tells whether the corresponding allocation succeeded
(`ps_malloc` of the Mac frame buffer, the two snapshot/compare buffers, and
`getDSIFramebuffer`).  A failed video-task creation does not change the
return value (lines 1656-1661: "Continue anyway"). -/
def VideoInit (mac_ok snapshot_ok compare_ok dsi_ok : Bool) : Bool :=
  if !mac_ok then false
  else if !snapshot_ok || !compare_ok then false
  else if !dsi_ok then false
  else true

theorem getD_map_range (f : Nat → Nat) (width x : Nat) (h : x < width) :
    ((List.range width).map f).getD x 0 = f x := by
  rw [List.getD_eq_getElem?_getD]
  rw [List.getElem?_map]
  rw [List.getElem?_range h]
  rfl

theorem tileBit_empty (t : Nat) : tileBit emptyBitmap t = false := by
  simp [tileBit, emptyBitmap]

theorem tileBit_markTile (bm : Bitmap) (i t : Nat) :
    tileBit (markTile bm i) t = (tileBit bm t || decide (t = i)) := by
  simp only [tileBit, markTile]
  by_cases hw : t / 32 = i / 32
  · rw [hw, if_pos rfl, Nat.testBit_lor, Nat.testBit_two_pow]
    by_cases ht : t = i
    · subst ht; simp
    · have hmod : ¬(i % 32 = t % 32) := by omega
      simp [ht, hmod, hw]
  · rw [if_neg hw]
    have ht : ¬(t = i) := by omega
    simp [ht]

theorem tileBit_markTileGuarded (bm : Bitmap) (i t : Nat) :
    tileBit (markTileGuarded bm i) t
      = (tileBit bm t || decide (i < TOTAL_TILES ∧ t = i)) := by
  unfold markTileGuarded
  by_cases hi : i < TOTAL_TILES
  · rw [if_pos hi, tileBit_markTile]
    simp [hi]
  · rw [if_neg hi]
    simp [hi]

theorem tileBit_foldl_markTileGuarded (L : List Nat) (bm : Bitmap) (t : Nat) :
    tileBit (L.foldl markTileGuarded bm) t = true ↔
      (tileBit bm t = true ∨ (t < TOTAL_TILES ∧ t ∈ L)) := by
  induction L generalizing bm with
  | nil => simp
  | cons a L ih =>
    rw [List.foldl_cons, ih, tileBit_markTileGuarded]
    simp only [List.mem_cons, Bool.or_eq_true, decide_eq_true_eq]
    constructor
    · rintro (⟨h | ⟨h1, rfl⟩⟩ | ⟨h1, h2⟩)
      · exact Or.inl h
      · exact Or.inr ⟨h1, Or.inl rfl⟩
      · exact Or.inr ⟨h1, Or.inr h2⟩
    · rintro (h | ⟨h1, rfl | h2⟩)
      · exact Or.inl (Or.inl h)
      · exact Or.inl (Or.inr ⟨h1, rfl⟩)
      · exact Or.inr ⟨h1, h2⟩

/-- Characterization of `VideoMarkDirtyOffset` on an in-range offset:
the bits set are exactly the old bits plus the tiles intersecting the pixel
range `[pixel_start, pixel_end_clamped]` in tile row `y / TILE_HEIGHT`. -/
theorem tileBit_VideoMarkDirtyOffset (fbsize bpr ppb offset : Nat) (bm : Bitmap) (t : Nat)
    (hoff : offset < fbsize)
    (hy : offset / bpr < MAC_SCREEN_HEIGHT)
    (hps : offset % bpr * ppb < MAC_SCREEN_WIDTH) :
    tileBit (VideoMarkDirtyOffset true fbsize bpr ppb offset bm) t = true ↔
      (tileBit bm t = true ∨
        (t / TILES_X = offset / bpr / TILE_HEIGHT ∧
          offset % bpr * ppb / TILE_WIDTH ≤ t % TILES_X ∧
          t % TILES_X ≤ min (offset % bpr * ppb + ppb - 1) (MAC_SCREEN_WIDTH - 1) / TILE_WIDTH)) := by
  unfold VideoMarkDirtyOffset
  rw [Bool.not_true, if_neg (by simp), if_neg (Nat.not_le.mpr hoff),
    if_neg (Nat.not_le.mpr hy), if_neg (Nat.not_le.mpr hps)]
  rw [show ∀ (n : Nat) (f : Nat → Nat),
        (List.range n).foldl (fun b i => markTileGuarded b (f i)) bm
          = ((List.range n).map f).foldl markTileGuarded bm by
      intro n f; rw [List.foldl_map]]
  rw [tileBit_foldl_markTileGuarded]
  simp only [List.mem_map, List.mem_range]
  simp only [TOTAL_TILES, TILES_X, TILES_Y, TILE_WIDTH, TILE_HEIGHT,
    MAC_SCREEN_WIDTH, MAC_SCREEN_HEIGHT] at *
  set y := offset / bpr with hy_def
  set ps := offset % bpr * ppb with hps_def
  rcases Nat.lt_or_ge (ps + ppb - 1) 640 with hc | hc
  · rw [if_neg (by omega), min_eq_left (by omega)]
    constructor
    · rintro (h | ⟨h1, i, hi, rfl⟩)
      · exact Or.inl h
      · refine Or.inr ⟨?_, ?_, ?_⟩ <;> omega
    · rintro (h | ⟨h1, h2, h3⟩)
      · exact Or.inl h
      · refine Or.inr ⟨?_, ⟨t % 16 - ps / 40, ?_, ?_⟩⟩ <;> omega
  · rw [if_pos (by omega), min_eq_right (by omega)]
    constructor
    · rintro (h | ⟨h1, i, hi, rfl⟩)
      · exact Or.inl h
      · refine Or.inr ⟨?_, ?_, ?_⟩ <;> omega
    · rintro (h | ⟨h1, h2, h3⟩)
      · exact Or.inl h
      · refine Or.inr ⟨?_, ⟨t % 16 - ps / 40, ?_, ?_⟩⟩ <;> omega

/-- In every supported mode, a byte within a valid row starts a pixel range
inside the 640-pixel screen: `offset % bpr * ppb < 640` since
`bpr * ppb = 640` for all four modes. -/
theorem pixel_start_lt (d : VDepth) (offset : Nat) :
    offset % bytesPerRow d * pixelsPerByte d < MAC_SCREEN_WIDTH := by
  cases d <;>
    · simp only [bytesPerRow, pixelsPerByte, MAC_SCREEN_WIDTH]
      omega

/-- C2: with write-time tracking enabled and a byte offset `o` inside the
framebuffer (and whose computed row is on screen), `VideoMarkDirtyOffset`
starting from the all-clean accumulator sets exactly the dirty bits of the
tiles in row `y / 40` whose column range intersects the pixel span of byte
`o`, and no others.  In particular in 8-bit mode a write at
`45 * 640 + 50` marks exactly tile 17, and in 2-bit mode (160 bytes per
row) a write to byte 9 of row 0 marks exactly tile 0. -/
theorem mark_offset_coverage (d : VDepth) (offset : Nat)
    (hoff : offset < frame_buffer_size)
    (hy : offset / bytesPerRow d < MAC_SCREEN_HEIGHT) :
    (∀ t, tileBit (VideoMarkDirtyOffset true frame_buffer_size (bytesPerRow d)
            (pixelsPerByte d) offset emptyBitmap) t = true ↔
        (t / TILES_X = offset / bytesPerRow d / TILE_HEIGHT ∧
          offset % bytesPerRow d * pixelsPerByte d / TILE_WIDTH ≤ t % TILES_X ∧
          t % TILES_X ≤ min (offset % bytesPerRow d * pixelsPerByte d + pixelsPerByte d - 1)
            (MAC_SCREEN_WIDTH - 1) / TILE_WIDTH))
    ∧ (∀ t, tileBit (VideoMarkDirtyOffset true frame_buffer_size 640 1 (45 * 640 + 50)
            emptyBitmap) t = true ↔ t = 17)
    ∧ (∀ t, tileBit (VideoMarkDirtyOffset true frame_buffer_size 160 4 9
            emptyBitmap) t = true ↔ t = 0) := by
  refine ⟨?_, ?_, ?_⟩
  · intro t
    rw [tileBit_VideoMarkDirtyOffset _ _ _ _ _ _ hoff hy (pixel_start_lt d offset)]
    simp [tileBit_empty]
  · intro t
    rw [tileBit_VideoMarkDirtyOffset _ _ _ _ _ _ (by norm_num [frame_buffer_size, MAC_SCREEN_WIDTH, MAC_SCREEN_HEIGHT])
      (by norm_num [MAC_SCREEN_HEIGHT]) (by norm_num [MAC_SCREEN_WIDTH])]
    simp only [tileBit_empty, false_or, TILES_X, TILE_HEIGHT, TILE_WIDTH, MAC_SCREEN_WIDTH]
    constructor
    · rintro ⟨h1, h2, h3⟩; omega
    · rintro rfl; omega
  · intro t
    rw [tileBit_VideoMarkDirtyOffset _ _ _ _ _ _ (by norm_num [frame_buffer_size, MAC_SCREEN_WIDTH, MAC_SCREEN_HEIGHT])
      (by norm_num [MAC_SCREEN_HEIGHT]) (by norm_num [MAC_SCREEN_WIDTH])]
    simp only [tileBit_empty, false_or, TILES_X, TILE_HEIGHT, TILE_WIDTH, MAC_SCREEN_WIDTH]
    constructor
    · rintro ⟨h1, h2, h3⟩; omega
    · rintro rfl; omega

/-- Witness for C2 at a concrete depth and offset. -/
theorem mark_offset_coverage_witness :
    (0 : Nat) < frame_buffer_size ∧ (0 : Nat) / bytesPerRow VDepth.eightbit < MAC_SCREEN_HEIGHT ∧
    ((∀ t, tileBit (VideoMarkDirtyOffset true frame_buffer_size (bytesPerRow VDepth.eightbit)
            (pixelsPerByte VDepth.eightbit) 0 emptyBitmap) t = true ↔
        (t / TILES_X = 0 / bytesPerRow VDepth.eightbit / TILE_HEIGHT ∧
          0 % bytesPerRow VDepth.eightbit * pixelsPerByte VDepth.eightbit / TILE_WIDTH ≤ t % TILES_X ∧
          t % TILES_X ≤ min (0 % bytesPerRow VDepth.eightbit * pixelsPerByte VDepth.eightbit
              + pixelsPerByte VDepth.eightbit - 1) (MAC_SCREEN_WIDTH - 1) / TILE_WIDTH))
    ∧ (∀ t, tileBit (VideoMarkDirtyOffset true frame_buffer_size 640 1 (45 * 640 + 50)
            emptyBitmap) t = true ↔ t = 17)
    ∧ (∀ t, tileBit (VideoMarkDirtyOffset true frame_buffer_size 160 4 9
            emptyBitmap) t = true ↔ t = 0)) :=
  ⟨by decide, by decide, mark_offset_coverage VDepth.eightbit 0 (by decide) (by decide)⟩

/-- C1: for every color depth, the three packed-pixel decode sites agree
bit-for-bit: `decodePackedRow` applied to the row starting at `fb + y*bpr`
agrees at every column `x < width` with the point query `getPackedPixel`,
and the per-pixel decode loop of `snapshotTile` produces, at tile-local
position (row, xt), the same 8-bit palette index as `getPackedPixel` at the
corresponding absolute pixel coordinate. -/
theorem decode_sites_agree (fb : Nat → Nat) (d : VDepth) (bpr width x y : Nat)
    (hx : x < width) (tile_x tile_y row xt : Nat)
    (hrow : row < TILE_HEIGHT) (hxt : xt < TILE_WIDTH) :
    (decodePackedRow (fun i => fb (y * bpr + i)) width d).getD x 0
        = getPackedPixel fb x y bpr d
    ∧ (snapshotTile fb tile_x tile_y bpr d).getD (row * TILE_WIDTH + xt) 0
        = getPackedPixel fb (tile_x * TILE_WIDTH + xt) (tile_y * TILE_HEIGHT + row) bpr d := by
  have hTW : TILE_WIDTH = 40 := rfl
  have hTH : TILE_HEIGHT = 40 := rfl
  constructor
  · cases d <;>
      simp [decodePackedRow, getPackedPixel, List.getD_eq_getElem?_getD,
        List.getElem?_map, List.getElem?_range hx]
  · have hk : row * TILE_WIDTH + xt < TILE_HEIGHT * TILE_WIDTH := by
      rw [hTW] at hxt ⊢; rw [hTH] at hrow ⊢; omega
    have hdiv : (row * TILE_WIDTH + xt) / TILE_WIDTH = row := by
      rw [hTW] at hxt ⊢; omega
    have hmod : (row * TILE_WIDTH + xt) % TILE_WIDTH = xt := by
      rw [hTW] at hxt ⊢; omega
    rw [snapshotTile, getD_map_range _ _ _ hk, hdiv, hmod]
    cases d <;>
      · simp only [snapshotTilePixel, getPackedPixel]
        try ring_nf

/-- Witness for C1 at concrete inputs. -/
theorem decode_sites_agree_witness :
    (3 : Nat) < 5 ∧ (7 : Nat) < TILE_HEIGHT ∧ (11 : Nat) < TILE_WIDTH ∧
    ((decodePackedRow (fun i => (fun j => (j + 3) % 256) (2 * 160 + i)) 5 VDepth.twobit).getD 3 0
        = getPackedPixel (fun j => (j + 3) % 256) 3 2 160 VDepth.twobit
    ∧ (snapshotTile (fun j => (j + 3) % 256) 1 2 160 VDepth.twobit).getD (7 * TILE_WIDTH + 11) 0
        = getPackedPixel (fun j => (j + 3) % 256) (1 * TILE_WIDTH + 11) (2 * TILE_HEIGHT + 7) 160
            VDepth.twobit) :=
  ⟨by decide, by decide, by decide,
    decode_sites_agree (fun j => (j + 3) % 256) VDepth.twobit 160 5 3 2 (by decide) 1 2 7 11
      (by decide) (by decide)⟩

theorem popcount_eq_zero_iff (n : Nat) : popcount n = 0 ↔ n = 0 := by
  induction n using Nat.strong_induction_on with
  | _ n ih =>
    match n with
    | 0 => simp [popcount]
    | m + 1 =>
      rw [popcount]
      constructor
      · intro h
        have h1 : (m + 1) % 2 = 0 := by omega
        have h2 : popcount ((m + 1) / 2) = 0 := by omega
        have h3 : (m + 1) / 2 = 0 := (ih ((m + 1) / 2) (by omega)).mp h2
        omega
      · intro h; omega

theorem le_foldl_add (g : Nat → Nat) :
    ∀ n j, j < n → g j ≤ (List.range n).foldl (fun c i => c + g i) 0 := by
  intro n
  induction n with
  | zero => intro j hj; omega
  | succ n ih =>
    intro j hj
    rw [List.range_succ, List.foldl_append, List.foldl_cons, List.foldl_nil]
    rcases Nat.lt_or_ge j n with h | h
    · exact Nat.le_trans (ih j h) (Nat.le_add_right _ _)
    · have : j = n := by omega
      subst this
      exact Nat.le_add_left _ _

theorem collect_fold (n : Nat) (c0 : Nat) (st : TrackerState) :
    ((List.range n).foldl
        (fun acc i =>
          let bits := acc.2.write_dirty_tiles i
          (acc.1 + popcount bits,
            { write_dirty_tiles := fun w => if w = i then 0 else acc.2.write_dirty_tiles w,
              dirty_tiles := fun w => if w = i then bits else acc.2.dirty_tiles w }))
        (c0, st)).1
      = c0 + (List.range n).foldl (fun c i => c + popcount (st.write_dirty_tiles i)) 0
    ∧ (∀ w, ((List.range n).foldl
        (fun acc i =>
          let bits := acc.2.write_dirty_tiles i
          (acc.1 + popcount bits,
            { write_dirty_tiles := fun w => if w = i then 0 else acc.2.write_dirty_tiles w,
              dirty_tiles := fun w => if w = i then bits else acc.2.dirty_tiles w }))
        (c0, st)).2.write_dirty_tiles w
        = if w < n then 0 else st.write_dirty_tiles w)
    ∧ (∀ w, ((List.range n).foldl
        (fun acc i =>
          let bits := acc.2.write_dirty_tiles i
          (acc.1 + popcount bits,
            { write_dirty_tiles := fun w => if w = i then 0 else acc.2.write_dirty_tiles w,
              dirty_tiles := fun w => if w = i then bits else acc.2.dirty_tiles w }))
        (c0, st)).2.dirty_tiles w
        = if w < n then st.write_dirty_tiles w else st.dirty_tiles w) := by
  induction n with
  | zero => simp
  | succ n ih =>
    obtain ⟨ih1, ih2, ih3⟩ := ih
    rw [List.range_succ] at *
    rw [List.foldl_append, List.foldl_cons, List.foldl_nil]
    rw [List.foldl_append, List.foldl_cons, List.foldl_nil]
    refine ⟨?_, ?_, ?_⟩
    · simp only [ih1, ih2]
      have : ¬(n < n) := by omega
      rw [if_neg this]
      omega
    · intro w
      simp only [ih2]
      by_cases hw : w = n
      · subst hw; simp
      · rw [if_neg hw]
        by_cases hlt : w < n
        · rw [if_pos hlt, if_pos (by omega)]
        · rw [if_neg hlt, if_neg (by omega)]
    · intro w
      simp only [ih2, ih3]
      by_cases hw : w = n
      · subst hw
        rw [if_pos rfl, if_neg (by omega), if_pos (by omega)]
      · rw [if_neg hw]
        by_cases hlt : w < n
        · rw [if_pos hlt, if_pos (by omega)]
        · rw [if_neg hlt, if_neg (by omega)]

theorem collectWriteDirtyTiles_spec (st : TrackerState) :
    (collectWriteDirtyTiles st).1
      = (List.range DIRTY_WORDS).foldl
          (fun c i => c + popcount (st.write_dirty_tiles i)) 0
    ∧ (∀ w, (collectWriteDirtyTiles st).2.write_dirty_tiles w
        = if w < DIRTY_WORDS then 0 else st.write_dirty_tiles w)
    ∧ (∀ w, (collectWriteDirtyTiles st).2.dirty_tiles w
        = if w < DIRTY_WORDS then st.write_dirty_tiles w else st.dirty_tiles w) := by
  have h := collect_fold DIRTY_WORDS 0 st
  unfold collectWriteDirtyTiles
  refine ⟨?_, h.2.1, h.2.2⟩
  rw [h.1]
  exact Nat.zero_add _

/-- C5: the drain fetches-and-clears each word of the write-dirty
accumulator into the render bitmap and returns the popcount of the drained
set; draining twice with no marks in between yields the marked set first
(non-empty count if any word was non-zero), then an empty set with count 0,
the accumulator being all-zero afterwards. -/
theorem drain_idempotence (st : TrackerState) :
    ((collectWriteDirtyTiles st).1
        = (List.range DIRTY_WORDS).foldl
            (fun c i => c + popcount (st.write_dirty_tiles i)) 0)
    ∧ (∀ w, w < DIRTY_WORDS →
        (collectWriteDirtyTiles st).2.dirty_tiles w = st.write_dirty_tiles w
        ∧ (collectWriteDirtyTiles st).2.write_dirty_tiles w = 0)
    ∧ ((∃ w, w < DIRTY_WORDS ∧ st.write_dirty_tiles w ≠ 0) →
        0 < (collectWriteDirtyTiles st).1)
    ∧ (collectWriteDirtyTiles (collectWriteDirtyTiles st).2).1 = 0
    ∧ (∀ w, w < DIRTY_WORDS →
        (collectWriteDirtyTiles (collectWriteDirtyTiles st).2).2.dirty_tiles w = 0
        ∧ (collectWriteDirtyTiles (collectWriteDirtyTiles st).2).2.write_dirty_tiles w = 0) := by
  obtain ⟨h1, h2, h3⟩ := collectWriteDirtyTiles_spec st
  obtain ⟨g1, g2, g3⟩ := collectWriteDirtyTiles_spec (collectWriteDirtyTiles st).2
  refine ⟨h1, ?_, ?_, ?_, ?_⟩
  · intro w hw
    exact ⟨by rw [h3 w, if_pos hw], by rw [h2 w, if_pos hw]⟩
  · rintro ⟨w, hw, hnz⟩
    have hle := le_foldl_add (fun i => popcount (st.write_dirty_tiles i)) DIRTY_WORDS w hw
    simp only at hle
    have hpos : 0 < popcount (st.write_dirty_tiles w) := by
      rcases Nat.eq_zero_or_pos (popcount (st.write_dirty_tiles w)) with h | h
      · exact absurd ((popcount_eq_zero_iff _).mp h) hnz
      · exact h
    omega
  · rw [g1]
    have hz : ∀ i, i < DIRTY_WORDS →
        popcount ((collectWriteDirtyTiles st).2.write_dirty_tiles i) = 0 := by
      intro i hi
      rw [h2 i, if_pos hi]
      simp [popcount_eq_zero_iff]
    have : ∀ n, n ≤ DIRTY_WORDS → (List.range n).foldl
        (fun c i => c + popcount ((collectWriteDirtyTiles st).2.write_dirty_tiles i)) 0 = 0 := by
      intro n
      induction n with
      | zero => simp
      | succ n ih =>
        intro hn
        rw [List.range_succ, List.foldl_append, List.foldl_cons, List.foldl_nil,
          ih (by omega), hz n (by omega)]
    exact this DIRTY_WORDS (Nat.le_refl _)
  · intro w hw
    refine ⟨?_, by rw [g2 w, if_pos hw]⟩
    rw [g3 w, if_pos hw, h2 w, if_pos hw]

theorem mem_renderAndPushDirtyTiles (dirty : Bitmap) (t : Nat) :
    t ∈ renderAndPushDirtyTiles dirty ↔ (t < TOTAL_TILES ∧ tileBit dirty t = true) := by
  unfold renderAndPushDirtyTiles
  simp only [List.mem_flatMap, List.mem_filterMap, List.mem_range]
  constructor
  · rintro ⟨ty, hty, tx, htx, heq⟩
    by_cases hb : tileBit dirty (ty * TILES_X + tx) = true
    · rw [if_pos hb] at heq
      obtain rfl : ty * TILES_X + tx = t := Option.some_injective _ heq
      refine ⟨?_, hb⟩
      simp only [TOTAL_TILES, TILES_X, TILES_Y] at *
      omega
    · rw [if_neg hb] at heq
      exact absurd heq (by simp)
  · rintro ⟨h1, h2⟩
    refine ⟨t / TILES_X, ?_, t % TILES_X, ?_, ?_⟩
    · simp only [TOTAL_TILES, TILES_X, TILES_Y] at *; omega
    · simp only [TILES_X]; omega
    · have ht : t / TILES_X * TILES_X + t % TILES_X = t := by
        simp only [TILES_X]; omega
      rw [ht, if_pos h2]

/-- C3: in a non-forced, write-tracking cycle with 144 tiles and the 80%
threshold (= 115 after integer division), a drained count above 115 forces
a full update; a count in (0, 115] takes the tile path, pushing exactly the
tiles set in the drained bitmap; a count of 0 renders and pushes nothing. -/
theorem scheduler_threshold_decision (st : SchedState)
    (h : st.force_full_update = false) :
    TOTAL_TILES * DIRTY_THRESHOLD_PERCENT / 100 = 115
    ∧ (115 < (collectWriteDirtyTiles st.tracker).1 →
        (videoCycleWriteTracking false st).1 = RenderOutcome.fullUpdate)
    ∧ (0 < (collectWriteDirtyTiles st.tracker).1 ∧ (collectWriteDirtyTiles st.tracker).1 ≤ 115 →
        (videoCycleWriteTracking false st).1
          = RenderOutcome.tileUpdate
              (renderAndPushDirtyTiles (collectWriteDirtyTiles st.tracker).2.dirty_tiles)
        ∧ (∀ t, t ∈ renderAndPushDirtyTiles (collectWriteDirtyTiles st.tracker).2.dirty_tiles
            ↔ (t < TOTAL_TILES
                ∧ tileBit (collectWriteDirtyTiles st.tracker).2.dirty_tiles t = true)))
    ∧ ((collectWriteDirtyTiles st.tracker).1 = 0 →
        (videoCycleWriteTracking false st).1 = RenderOutcome.skipped) := by
  have hth : TOTAL_TILES * DIRTY_THRESHOLD_PERCENT / 100 = 115 := by decide
  refine ⟨hth, ?_, ?_, ?_⟩
  · intro hk
    unfold videoCycleWriteTracking
    rw [h]
    simp only [Bool.false_eq_true, if_false]
    rw [hth, if_pos hk]
  · rintro ⟨hk1, hk2⟩
    unfold videoCycleWriteTracking
    rw [h]
    simp only [Bool.false_eq_true, if_false]
    rw [hth, if_neg (by omega), if_pos hk1]
    exact ⟨rfl, fun t => mem_renderAndPushDirtyTiles _ t⟩
  · intro hk
    unfold videoCycleWriteTracking
    rw [h]
    simp only [Bool.false_eq_true, if_false]
    rw [hth, if_neg (by omega), if_neg (by omega)]

/-- Witness for C3 at a concrete state with one marked tile. -/
theorem scheduler_threshold_decision_witness :
    (SchedState.mk false ⟨fun w => if w = 0 then 2 else 0, fun _ => 0⟩).force_full_update = false
    ∧ (0 < (collectWriteDirtyTiles
          (SchedState.mk false ⟨fun w => if w = 0 then 2 else 0, fun _ => 0⟩).tracker).1
        ∧ (collectWriteDirtyTiles
          (SchedState.mk false ⟨fun w => if w = 0 then 2 else 0, fun _ => 0⟩).tracker).1 ≤ 115 →
        (videoCycleWriteTracking false
            (SchedState.mk false ⟨fun w => if w = 0 then 2 else 0, fun _ => 0⟩)).1
          = RenderOutcome.tileUpdate
              (renderAndPushDirtyTiles (collectWriteDirtyTiles
                (SchedState.mk false ⟨fun w => if w = 0 then 2 else 0, fun _ => 0⟩).tracker).2.dirty_tiles)
        ∧ (∀ t, t ∈ renderAndPushDirtyTiles (collectWriteDirtyTiles
              (SchedState.mk false ⟨fun w => if w = 0 then 2 else 0, fun _ => 0⟩).tracker).2.dirty_tiles
            ↔ (t < TOTAL_TILES
                ∧ tileBit (collectWriteDirtyTiles
                    (SchedState.mk false ⟨fun w => if w = 0 then 2 else 0, fun _ => 0⟩).tracker).2.dirty_tiles
                    t = true))) :=
  ⟨rfl, (scheduler_threshold_decision
      (SchedState.mk false ⟨fun w => if w = 0 then 2 else 0, fun _ => 0⟩) rfl).2.2.1⟩

/-- C4: any palette mutation through `set_palette` sets the sticky
`force_full_update` flag; the flag survives rate-limited (no-op) cycles;
the next completed cycle is a full update regardless of the dirty state
(the drain is not even consulted), after which the flag is clear; and the
flag can only transition from set to clear in a cycle whose outcome is a
full update. -/
theorem palette_forces_full (pal : Nat → Nat) (num : Nat) (palette : Nat → Nat)
    (st : SchedState) :
    (set_palette pal num palette st).2.force_full_update = true
    ∧ videoCycleWriteTracking true (set_palette pal num palette st).2
        = (RenderOutcome.noCycle, (set_palette pal num palette st).2)
    ∧ (videoCycleWriteTracking false (set_palette pal num palette st).2).1
        = RenderOutcome.fullUpdate
    ∧ (videoCycleWriteTracking false (set_palette pal num palette st).2).2.force_full_update
        = false
    ∧ (∀ (st' : SchedState) (rl : Bool), st'.force_full_update = true →
        (videoCycleWriteTracking rl st').2.force_full_update = false →
        (videoCycleWriteTracking rl st').1 = RenderOutcome.fullUpdate) := by
  refine ⟨rfl, rfl, rfl, rfl, ?_⟩
  intro st' rl hset hclear
  cases rl with
  | true =>
    unfold videoCycleWriteTracking at hclear
    simp at hclear
    rw [hset] at hclear
    exact absurd hclear (by simp)
  | false =>
    unfold videoCycleWriteTracking
    rw [hset]
    simp

/-- Witness for C4's clearing clause at a concrete state. -/
theorem palette_forces_full_witness :
    (SchedState.mk true ⟨fun _ => 0, fun _ => 0⟩).force_full_update = true
    ∧ (videoCycleWriteTracking false (SchedState.mk true ⟨fun _ => 0, fun _ => 0⟩)).2.force_full_update
        = false
    ∧ (videoCycleWriteTracking false (SchedState.mk true ⟨fun _ => 0, fun _ => 0⟩)).1
        = RenderOutcome.fullUpdate :=
  ⟨rfl, rfl,
    (palette_forces_full (fun _ => 0) 0 (fun _ => 0)
        (SchedState.mk false ⟨fun _ => 0, fun _ => 0⟩)).2.2.2.2
      (SchedState.mk true ⟨fun _ => 0, fun _ => 0⟩) false rfl rfl⟩

/-- Witness for C5's non-emptiness clause at a concrete accumulator. -/
theorem drain_idempotence_witness :
    (∃ w, w < DIRTY_WORDS ∧ (TrackerState.mk (fun w => if w = 0 then 5 else 0)
        (fun _ => 0)).write_dirty_tiles w ≠ 0)
    ∧ 0 < (collectWriteDirtyTiles (TrackerState.mk (fun w => if w = 0 then 5 else 0)
        (fun _ => 0))).1 :=
  ⟨⟨0, by decide, by decide⟩,
    (drain_idempotence (TrackerState.mk (fun w => if w = 0 then 5 else 0)
        (fun _ => 0))).2.2.1 ⟨0, by decide, by decide⟩⟩

theorem testBit_ne_zero {n i : Nat} (h : n.testBit i = true) : n ≠ 0 := by
  intro hz
  subst hz
  simp at h

/-- C10: a cycle whose full render is triggered by `force_full_update` does
not execute the drain, so the write-dirty accumulator is unchanged; every
tile bit set before the forced full render is still set afterwards, is
drained into the render bitmap by the next completed cycle, and that cycle
re-renders the tile (as part of a full update or by pushing it on the tile
path). -/
theorem forced_full_preserves_accumulator (st : SchedState)
    (h : st.force_full_update = true) :
    (videoCycleWriteTracking false st).1 = RenderOutcome.fullUpdate
    ∧ (∀ w, (videoCycleWriteTracking false st).2.tracker.write_dirty_tiles w
        = st.tracker.write_dirty_tiles w)
    ∧ (∀ t, t < TOTAL_TILES → tileBit st.tracker.write_dirty_tiles t = true →
        tileBit (collectWriteDirtyTiles
            (videoCycleWriteTracking false st).2.tracker).2.dirty_tiles t = true
        ∧ ((videoCycleWriteTracking false (videoCycleWriteTracking false st).2).1
              = RenderOutcome.fullUpdate
          ∨ ∃ L, (videoCycleWriteTracking false (videoCycleWriteTracking false st).2).1
                = RenderOutcome.tileUpdate L ∧ t ∈ L)) := by
  have hcyc : videoCycleWriteTracking false st
      = (RenderOutcome.fullUpdate, { force_full_update := false, tracker := st.tracker }) := by
    unfold videoCycleWriteTracking
    rw [h]
    simp
  rw [hcyc]
  refine ⟨rfl, fun w => rfl, ?_⟩
  intro t ht hbit
  obtain ⟨c1, c2, c3⟩ := collectWriteDirtyTiles_spec st.tracker
  have hword : t / 32 < DIRTY_WORDS := by
    simp only [TOTAL_TILES, TILES_X, TILES_Y] at ht
    simp only [DIRTY_WORDS, TOTAL_TILES, TILES_X, TILES_Y]
    omega
  have hdirty : tileBit (collectWriteDirtyTiles st.tracker).2.dirty_tiles t = true := by
    unfold tileBit at hbit ⊢
    rw [c3 (t / 32), if_pos hword]
    exact hbit
  refine ⟨hdirty, ?_⟩
  have hpos : 0 < (collectWriteDirtyTiles st.tracker).1 := by
    have := (drain_idempotence st.tracker).2.2.1
    exact this ⟨t / 32, hword, testBit_ne_zero hbit⟩
  obtain ⟨hth, hfull, htile, hskip⟩ := scheduler_threshold_decision
    { force_full_update := false, tracker := st.tracker } rfl
  rcases Nat.lt_or_ge 115 (collectWriteDirtyTiles st.tracker).1 with hk | hk
  · exact Or.inl (hfull hk)
  · obtain ⟨he, hm⟩ := htile ⟨hpos, hk⟩
    refine Or.inr ⟨renderAndPushDirtyTiles (collectWriteDirtyTiles st.tracker).2.dirty_tiles,
      he, ?_⟩
    exact (hm t).mpr ⟨ht, hdirty⟩

/-- Witness for C10 at a concrete forced state with tile 3 marked. -/
theorem forced_full_preserves_accumulator_witness :
    (SchedState.mk true ⟨fun w => if w = 0 then 8 else 0, fun _ => 0⟩).force_full_update = true
    ∧ ((3 : Nat) < TOTAL_TILES)
    ∧ tileBit (SchedState.mk true ⟨fun w => if w = 0 then 8 else 0, fun _ => 0⟩).tracker.write_dirty_tiles 3
        = true
    ∧ (videoCycleWriteTracking false
        (SchedState.mk true ⟨fun w => if w = 0 then 8 else 0, fun _ => 0⟩)).1
        = RenderOutcome.fullUpdate :=
  ⟨rfl, by decide, by decide,
    (forced_full_preserves_accumulator
        (SchedState.mk true ⟨fun w => if w = 0 then 8 else 0, fun _ => 0⟩) rfl).1⟩

theorem bool_eq_of_true_iff {a b : Bool} (h : a = true ↔ b = true) : a = b := by
  cases a <;> cases b <;> simp_all

theorem tileBit_foldl_markTile (L : List Nat) (bm : Bitmap) (t : Nat) :
    tileBit (L.foldl markTile bm) t = true ↔ (tileBit bm t = true ∨ t ∈ L) := by
  induction L generalizing bm with
  | nil => simp
  | cons a L ih =>
    rw [List.foldl_cons, ih, tileBit_markTile]
    simp only [List.mem_cons, Bool.or_eq_true, decide_eq_true_eq]
    tauto

theorem tileBit_foldl_foldl_markTile (g : Nat → Nat → Nat) (nJ nI : Nat)
    (bm : Bitmap) (t : Nat) :
    tileBit ((List.range nJ).foldl
        (fun b j => (List.range nI).foldl (fun b2 i => markTile b2 (g j i)) b) bm) t = true ↔
      (tileBit bm t = true ∨ ∃ j, j < nJ ∧ ∃ i, i < nI ∧ t = g j i) := by
  induction nJ generalizing bm with
  | zero => simp
  | succ n ih =>
    rw [List.range_succ, List.foldl_append, List.foldl_cons, List.foldl_nil]
    rw [show ∀ (b : Bitmap),
          (List.range nI).foldl (fun b2 i => markTile b2 (g n i)) b
            = ((List.range nI).map (g n)).foldl markTile b by
        intro b; rw [List.foldl_map]]
    rw [tileBit_foldl_markTile, ih]
    simp only [List.mem_map, List.mem_range]
    constructor
    · rintro ((h | ⟨j, hj, i, hi, rfl⟩) | ⟨i, hi, rfl⟩)
      · exact Or.inl h
      · exact Or.inr ⟨j, by omega, i, hi, rfl⟩
      · exact Or.inr ⟨n, by omega, i, hi, rfl⟩
    · rintro (h | ⟨j, hj, i, hi, rfl⟩)
      · exact Or.inl (Or.inl h)
      · rcases Nat.lt_or_ge j n with hlt | hge
        · exact Or.inl (Or.inr ⟨j, hlt, i, hi, rfl⟩)
        · have : j = n := by omega
          subst this
          exact Or.inr ⟨i, hi, rfl⟩

theorem tileBit_VideoMarkDirtyOffset_iff (tracking : Bool) (fbsize bpr ppb offset : Nat)
    (bm : Bitmap) (t : Nat) :
    tileBit (VideoMarkDirtyOffset tracking fbsize bpr ppb offset bm) t = true ↔
      (tileBit bm t = true ∨
        (tracking = true ∧ offset < fbsize ∧ offset / bpr < MAC_SCREEN_HEIGHT ∧
          offset % bpr * ppb < MAC_SCREEN_WIDTH ∧ t < TOTAL_TILES ∧
          ∃ i, i < (if MAC_SCREEN_WIDTH ≤ offset % bpr * ppb + ppb - 1
                then MAC_SCREEN_WIDTH - 1 else offset % bpr * ppb + ppb - 1) / TILE_WIDTH
              + 1 - offset % bpr * ppb / TILE_WIDTH
            ∧ t = offset / bpr / TILE_HEIGHT * TILES_X
                + (offset % bpr * ppb / TILE_WIDTH + i))) := by
  cases tracking with
  | false =>
    unfold VideoMarkDirtyOffset
    simp
  | true =>
    unfold VideoMarkDirtyOffset
    rw [Bool.not_true, if_neg (by simp)]
    by_cases h1 : fbsize ≤ offset
    · rw [if_pos h1]
      simp [show ¬(offset < fbsize) from by omega]
    · rw [if_neg h1]
      by_cases h2 : MAC_SCREEN_HEIGHT ≤ offset / bpr
      · rw [if_pos h2]
        simp [show ¬(offset / bpr < MAC_SCREEN_HEIGHT) from by omega]
      · rw [if_neg h2]
        by_cases h3 : MAC_SCREEN_WIDTH ≤ offset % bpr * ppb
        · rw [if_pos h3]
          simp [show ¬(offset % bpr * ppb < MAC_SCREEN_WIDTH) from by omega]
        · rw [if_neg h3]
          rw [show ∀ (n : Nat) (f : Nat → Nat),
                (List.range n).foldl (fun b i => markTileGuarded b (f i)) bm
                  = ((List.range n).map f).foldl markTileGuarded bm by
              intro n f; rw [List.foldl_map]]
          rw [tileBit_foldl_markTileGuarded]
          simp only [List.mem_map, List.mem_range]
          constructor
          · rintro (h | ⟨ht, i, hi, rfl⟩)
            · exact Or.inl h
            · exact Or.inr ⟨by trivial, by omega, by omega, by omega, ht, i, hi, rfl⟩
          · rintro (h | ⟨_, _, _, _, ht, i, hi, rfl⟩)
            · exact Or.inl h
            · exact Or.inr ⟨ht, i, hi, rfl⟩

theorem VideoMarkDirtyOffset_idem (tracking : Bool) (fbsize bpr ppb offset : Nat)
    (bm : Bitmap) (t : Nat) :
    tileBit (VideoMarkDirtyOffset tracking fbsize bpr ppb offset
        (VideoMarkDirtyOffset tracking fbsize bpr ppb offset bm)) t
      = tileBit (VideoMarkDirtyOffset tracking fbsize bpr ppb offset bm) t := by
  apply bool_eq_of_true_iff
  rw [tileBit_VideoMarkDirtyOffset_iff, tileBit_VideoMarkDirtyOffset_iff]
  tauto

/-- C9: for every offset, size and mode arguments — including out-of-range
offsets and offsets whose computed row lies beyond the screen — the two
write-time marking calls either mark nothing or set only bits whose tile
index lies below `TOTAL_TILES`: any newly set bit has `t < 144`, so every
write to the dirty-bitmap array stays within its 144-tile bounds. -/
theorem mark_bounds (tracking : Bool) (fbsize bpr ppb offset size : Nat)
    (bm : Bitmap) (t : Nat) :
    (tileBit (VideoMarkDirtyOffset tracking fbsize bpr ppb offset bm) t = true →
      tileBit bm t = true ∨ t < TOTAL_TILES)
    ∧ (tileBit (VideoMarkDirtyRange tracking fbsize bpr ppb offset size bm) t = true →
      tileBit bm t = true ∨ t < TOTAL_TILES) := by
  have hoff_safe : ∀ (o : Nat) (b : Bitmap),
      tileBit (VideoMarkDirtyOffset tracking fbsize bpr ppb o b) t = true →
        tileBit b t = true ∨ t < TOTAL_TILES := by
    intro o b h
    rcases (tileBit_VideoMarkDirtyOffset_iff tracking fbsize bpr ppb o b t).mp h with h1 | h1
    · exact Or.inl h1
    · exact Or.inr h1.2.2.2.2.1
  refine ⟨hoff_safe offset bm, ?_⟩
  intro h
  unfold VideoMarkDirtyRange at h
  cases tracking with
  | false =>
    simp only [Bool.not_false, if_pos rfl] at h
    exact Or.inl h
  | true =>
    rw [Bool.not_true, if_neg (by simp)] at h
    by_cases h1 : fbsize ≤ offset
    · rw [if_pos h1] at h
      exact Or.inl h
    · rw [if_neg h1] at h
      set size2 := if fbsize < (offset + size) % 2 ^ 32 then fbsize - offset else size
        with hs2
      set last := (offset + size2 + (2 ^ 32 - 1)) % 2 ^ 32 with hlast
      by_cases h2 : last / bpr = offset / bpr ∧ size2 ≤ 4
      · rw [if_pos h2] at h
        by_cases h3 : 1 < size2
        · rw [if_pos h3] at h
          rcases hoff_safe _ _ h with h4 | h4
          · exact hoff_safe _ _ h4
          · exact Or.inr h4
        · rw [if_neg h3] at h
          exact hoff_safe _ _ h
      · rw [if_neg h2] at h
        have hmem := (tileBit_foldl_foldl_markTile
          (fun j i => (offset / bpr / TILE_HEIGHT + j) * TILES_X
            + ((if offset / bpr < last / bpr then 0
                else offset % bpr * ppb) / TILE_WIDTH + i))
          ((if TILES_Y ≤ last / bpr / TILE_HEIGHT then TILES_Y - 1
              else last / bpr / TILE_HEIGHT) + 1 - offset / bpr / TILE_HEIGHT)
          ((if TILES_X ≤ (if offset / bpr < last / bpr then MAC_SCREEN_WIDTH - 1
                else (last % bpr + 1) * ppb - 1) / TILE_WIDTH then TILES_X - 1
              else (if offset / bpr < last / bpr then MAC_SCREEN_WIDTH - 1
                else (last % bpr + 1) * ppb - 1) / TILE_WIDTH) + 1
            - (if offset / bpr < last / bpr then 0
                else offset % bpr * ppb) / TILE_WIDTH)
          bm t).mp h
        rcases hmem with h3 | ⟨j, hj, i, hi, rfl⟩
        · exact Or.inl h3
        · right
          simp only [TILES_X, TILES_Y, TILE_WIDTH, TILE_HEIGHT, MAC_SCREEN_WIDTH,
            TOTAL_TILES] at *
          rcases Nat.lt_or_ge (last / bpr / 40) 9 with hy | hy
          · rw [if_neg (by omega)] at hj
            rcases Nat.lt_or_ge ((if offset / bpr < last / bpr then 640 - 1
                else (last % bpr + 1) * ppb - 1) / 40) 16 with hx | hx
            · rw [if_neg (by omega)] at hi
              omega
            · rw [if_pos (by omega)] at hi
              omega
          · rw [if_pos (by omega)] at hj
            rcases Nat.lt_or_ge ((if offset / bpr < last / bpr then 640 - 1
                else (last % bpr + 1) * ppb - 1) / 40) 16 with hx | hx
            · rw [if_neg (by omega)] at hi
              omega
            · rw [if_pos (by omega)] at hi
              omega

/-- C6: for a write range confined to one row with size at most 4 bytes,
`VideoMarkDirtyRange` marks bit-for-bit what the two `VideoMarkDirtyOffset`
calls on the first and last byte of the range mark; for a multi-row range
it computes the exact row span and conservatively marks the full tile-row
width (every tile column) for every on-screen row of the span — in
particular for every row fully inside it. -/
theorem mark_range_contract (d : VDepth) (offset size : Nat) (bm : Bitmap)
    (h1 : offset < frame_buffer_size)
    (h2 : offset + size ≤ frame_buffer_size)
    (h3 : 1 ≤ size) :
    ((offset / bytesPerRow d = (offset + size - 1) / bytesPerRow d ∧ size ≤ 4) →
      ∀ t, tileBit (VideoMarkDirtyRange true frame_buffer_size (bytesPerRow d)
            (pixelsPerByte d) offset size bm) t
        = tileBit (VideoMarkDirtyOffset true frame_buffer_size (bytesPerRow d)
            (pixelsPerByte d) (offset + size - 1)
            (VideoMarkDirtyOffset true frame_buffer_size (bytesPerRow d)
              (pixelsPerByte d) offset bm)) t)
    ∧ (offset / bytesPerRow d < (offset + size - 1) / bytesPerRow d →
      ∀ y, offset / bytesPerRow d ≤ y → y ≤ (offset + size - 1) / bytesPerRow d →
        y < MAC_SCREEN_HEIGHT → ∀ tx, tx < TILES_X →
        tileBit (VideoMarkDirtyRange true frame_buffer_size (bytesPerRow d)
            (pixelsPerByte d) offset size bm)
          (y / TILE_HEIGHT * TILES_X + tx) = true) := by
  have hfbs : frame_buffer_size = 230400 := rfl
  have hpow : (2 : Nat) ^ 32 = 4294967296 := by norm_num
  have h2' : offset + size ≤ 230400 := by
    rw [hfbs] at h2
    exact h2
  have hs2 : (if frame_buffer_size < (offset + size) % 2 ^ 32
      then frame_buffer_size - offset else size) = size := by
    rw [if_neg]
    rw [hfbs]
    omega
  have hlast : (offset + size + (2 ^ 32 - 1)) % 2 ^ 32 = offset + size - 1 := by
    omega
  constructor
  · rintro ⟨hrow, hsz⟩ t
    unfold VideoMarkDirtyRange
    rw [Bool.not_true, if_neg (by simp), if_neg (by omega)]
    simp only [hs2, hlast]
    rw [if_pos ⟨hrow.symm, hsz⟩]
    by_cases hgt : 1 < size
    · rw [if_pos hgt]
    · rw [if_neg hgt]
      have hsize1 : size = 1 := by omega
      subst hsize1
      rw [show offset + 1 - 1 = offset from by omega]
      exact (VideoMarkDirtyOffset_idem true frame_buffer_size (bytesPerRow d)
        (pixelsPerByte d) offset bm t).symm
  · intro hmulti y hy1 hy2 hy3 tx htx
    unfold VideoMarkDirtyRange
    rw [Bool.not_true, if_neg (by simp), if_neg (by omega)]
    simp only [hs2, hlast]
    rw [if_neg (by omega)]
    rw [if_pos hmulti, if_pos hmulti]
    refine (tileBit_foldl_foldl_markTile
      (fun j i => (offset / bytesPerRow d / TILE_HEIGHT + j) * TILES_X
        + (0 / TILE_WIDTH + i))
      ((if TILES_Y ≤ (offset + size - 1) / bytesPerRow d / TILE_HEIGHT then TILES_Y - 1
          else (offset + size - 1) / bytesPerRow d / TILE_HEIGHT) + 1
        - offset / bytesPerRow d / TILE_HEIGHT)
      ((if TILES_X ≤ (MAC_SCREEN_WIDTH - 1) / TILE_WIDTH then TILES_X - 1
          else (MAC_SCREEN_WIDTH - 1) / TILE_WIDTH) + 1 - 0 / TILE_WIDTH)
      bm _).mpr (Or.inr ?_)
    refine ⟨y / TILE_HEIGHT - offset / bytesPerRow d / TILE_HEIGHT, ?_, tx, ?_, ?_⟩
    · simp only [TILES_Y, TILE_HEIGHT] at *
      rcases Nat.lt_or_ge ((offset + size - 1) / bytesPerRow d / 40) 9 with hcl | hcl
      · rw [if_neg (by omega)]
        omega
      · rw [if_pos (by omega)]
        simp only [MAC_SCREEN_HEIGHT] at hy3
        omega
    · simp only [TILES_X, TILE_WIDTH, MAC_SCREEN_WIDTH]
      norm_num
      simp only [TILES_X] at htx
      omega
    · simp only [TILES_X, TILE_HEIGHT, TILE_WIDTH] at *
      omega

/-- Witness for C6 at a concrete 2-byte single-row write and a concrete
two-row write. -/
theorem mark_range_contract_witness :
    ((50 : Nat) < frame_buffer_size ∧ 50 + 2 ≤ frame_buffer_size ∧ (1 : Nat) ≤ 2)
    ∧ (((50 : Nat) / bytesPerRow VDepth.eightbit = (50 + 2 - 1) / bytesPerRow VDepth.eightbit
          ∧ (2 : Nat) ≤ 4) →
        ∀ t, tileBit (VideoMarkDirtyRange true frame_buffer_size (bytesPerRow VDepth.eightbit)
              (pixelsPerByte VDepth.eightbit) 50 2 emptyBitmap) t
          = tileBit (VideoMarkDirtyOffset true frame_buffer_size (bytesPerRow VDepth.eightbit)
              (pixelsPerByte VDepth.eightbit) (50 + 2 - 1)
              (VideoMarkDirtyOffset true frame_buffer_size (bytesPerRow VDepth.eightbit)
                (pixelsPerByte VDepth.eightbit) 50 emptyBitmap)) t) :=
  ⟨⟨by decide, by decide, by decide⟩,
    (mark_range_contract VDepth.eightbit 50 2 emptyBitmap (by decide) (by decide) (by decide)).1⟩

/-- Witness for C9 at a concrete out-of-range offset (marks nothing) and an
in-range one. -/
theorem mark_bounds_witness :
    (tileBit (VideoMarkDirtyOffset true frame_buffer_size 640 1 0 emptyBitmap) 0 = true
      → tileBit emptyBitmap 0 = true ∨ (0 : Nat) < TOTAL_TILES)
    ∧ (tileBit (VideoMarkDirtyRange true frame_buffer_size 640 1 999999999 4 emptyBitmap) 0 = true
      → tileBit emptyBitmap 0 = true ∨ (0 : Nat) < TOTAL_TILES) :=
  ⟨(mark_bounds true frame_buffer_size 640 1 0 4 emptyBitmap 0).1,
    (mark_bounds true frame_buffer_size 640 1 999999999 4 emptyBitmap 0).2⟩

/-- C8: if the `ps_malloc` of the Mac frame buffer, either snapshot/compare
buffer, or the display framebuffer fails, `VideoInit` returns false (the
video subsystem reports failure and does not start) — and only then. -/
theorem VideoInit_alloc_failure (mac_ok snapshot_ok compare_ok dsi_ok : Bool) :
    VideoInit mac_ok snapshot_ok compare_ok dsi_ok = false ↔
      (mac_ok = false ∨ snapshot_ok = false ∨ compare_ok = false ∨ dsi_ok = false) := by
  cases mac_ok <;> cases snapshot_ok <;> cases compare_ok <;> cases dsi_ok <;>
    simp [VideoInit]

theorem length_flatMap_range_const (f : Nat → List Nat) (m : Nat)
    (hf : ∀ r, (f r).length = m) (n : Nat) :
    ((List.range n).flatMap f).length = n * m := by
  induction n with
  | zero => simp
  | succ n ih =>
    rw [List.range_succ, List.flatMap_append, List.length_append, ih,
      List.flatMap_singleton, hf n]
    ring

theorem getD_flatMap_range_const (f : Nat → List Nat) (m : Nat)
    (hf : ∀ r, (f r).length = m) (n row t : Nat) (hrow : row < n) (ht : t < m) :
    ((List.range n).flatMap f).getD (row * m + t) 0 = (f row).getD t 0 := by
  induction n with
  | zero => omega
  | succ n ih =>
    rw [List.range_succ, List.flatMap_append, List.flatMap_singleton]
    rcases Nat.lt_or_ge row n with h | h
    · rw [List.getD_append]
      · exact ih h
      · rw [length_flatMap_range_const f m hf n]
        have hstep : row * m + t < (row + 1) * m := by
          have : (row + 1) * m = row * m + m := by ring
          omega
        exact Nat.lt_of_lt_of_le hstep (Nat.mul_le_mul (by omega) (Nat.le_refl m))
    · have hrow_eq : row = n := by omega
      rw [List.getD_append_right]
      · rw [length_flatMap_range_const f m hf n, hrow_eq,
          show n * m + t - n * m = t from by omega]
      · rw [length_flatMap_range_const f m hf n, hrow_eq]
        exact Nat.le_add_right _ _

theorem renderGroupPixels_length (s p : Nat → Nat) (row g : Nat) :
    (renderGroupPixels s p row g).length = 8 := by
  rfl

theorem renderRowPixels_length (s p : Nat → Nat) (row : Nat) :
    (renderRowPixels s p row).length = 80 := by
  unfold renderRowPixels
  rw [length_flatMap_range_const _ 8 (renderGroupPixels_length s p row) (TILE_WIDTH / 4)]
  rfl

/-- The four bytes of the 32-bit wide read, recovered by the shift-mask
chain, given that snapshot bytes are bytes. -/
theorem src4_bytes (a b c d : Nat) (ha : a < 256) (hb : b < 256) (hc : c < 256)
    (hd : d < 256) :
    (a + 256 * b + 65536 * c + 16777216 * d) % 256 = a
    ∧ (a + 256 * b + 65536 * c + 16777216 * d) / 256 % 256 = b
    ∧ (a + 256 * b + 65536 * c + 16777216 * d) / 65536 % 256 = c
    ∧ (a + 256 * b + 65536 * c + 16777216 * d) / 16777216 % 256 = d := by
  refine ⟨?_, ?_, ?_, ?_⟩ <;> omega

/-- C7: for every 40x40 snapshot of byte values and every palette,
`renderTileFromSnapshot` produces an 80x80 output in which the pixel at
output row `2r + i`, column `2x + j` (i, j in {0,1}) equals
`palette (snapshot (40r + x))` — exact 2x2 replication through the palette,
so the 4-pixel wide-read loop behaves identically to per-pixel processing. -/
theorem renderTileFromSnapshot_replicates (s p : Nat → Nat)
    (hbytes : ∀ k, s k < 256) (r x i j : Nat)
    (hr : r < TILE_HEIGHT) (hx : x < TILE_WIDTH) (hi : i < 2) (hj : j < 2) :
    (renderTileFromSnapshot s p).length
        = TILE_WIDTH * PIXEL_SCALE * (TILE_HEIGHT * PIXEL_SCALE)
    ∧ (renderTileFromSnapshot s p).getD
        ((2 * r + i) * (TILE_WIDTH * PIXEL_SCALE) + (2 * x + j)) 0
      = p (s (r * TILE_WIDTH + x)) := by
  have hrowlen : ∀ row, (renderRowPixels s p row ++ renderRowPixels s p row).length = 160 := by
    intro row
    rw [List.length_append, renderRowPixels_length]
  constructor
  · unfold renderTileFromSnapshot
    rw [length_flatMap_range_const _ 160 hrowlen TILE_HEIGHT]
    rfl
  · have hidx : (2 * r + i) * (TILE_WIDTH * PIXEL_SCALE) + (2 * x + j)
        = r * 160 + (i * 80 + (2 * x + j)) := by
      simp only [TILE_WIDTH, PIXEL_SCALE]
      omega
    rw [hidx]
    unfold renderTileFromSnapshot
    rw [getD_flatMap_range_const _ 160 hrowlen TILE_HEIGHT r _ hr
      (by simp only [TILE_WIDTH] at hx; omega)]
    have hinner : (renderRowPixels s p r ++ renderRowPixels s p r).getD
        (i * 80 + (2 * x + j)) 0 = (renderRowPixels s p r).getD (2 * x + j) 0 := by
      rcases Nat.lt_or_ge i 1 with hi0 | hi1
      · have hie : i = 0 := by omega
        subst hie
        rw [show (0 : Nat) * 80 + (2 * x + j) = 2 * x + j from by omega]
        rw [List.getD_append]
        rw [renderRowPixels_length]
        simp only [TILE_WIDTH] at hx
        omega
      · have hie : i = 1 := by omega
        subst hie
        rw [List.getD_append_right]
        · rw [renderRowPixels_length,
            show 1 * 80 + (2 * x + j) - 80 = 2 * x + j from by omega]
        · rw [renderRowPixels_length]
          omega
    rw [hinner]
    unfold renderRowPixels
    have hxsplit : 2 * x + j = x / 4 * 8 + (2 * (x % 4) + j) := by omega
    rw [hxsplit]
    rw [getD_flatMap_range_const _ 8 (renderGroupPixels_length s p r) (TILE_WIDTH / 4)
      (x / 4) _ (by simp only [TILE_WIDTH] at hx ⊢; omega) (by omega)]
    have hk : r * TILE_WIDTH + 4 * (x / 4) + (x % 4) = r * TILE_WIDTH + x := by
      omega
    obtain ⟨e0, e1, e2, e3⟩ := src4_bytes
      (s (r * TILE_WIDTH + 4 * (x / 4)))
      (s (r * TILE_WIDTH + 4 * (x / 4) + 1))
      (s (r * TILE_WIDTH + 4 * (x / 4) + 2))
      (s (r * TILE_WIDTH + 4 * (x / 4) + 3))
      (hbytes _) (hbytes _) (hbytes _) (hbytes _)
    have hv : x % 4 = 0 ∨ x % 4 = 1 ∨ x % 4 = 2 ∨ x % 4 = 3 := by omega
    have hj01 : j = 0 ∨ j = 1 := by omega
    rcases hv with hv | hv | hv | hv <;> rcases hj01 with hj0 | hj0 <;>
      · subst hj0
        rw [← hk]
        simp only [hv, renderGroupPixels, e0, e1, e2, e3]
        rfl

/-- Witness for C7 at a concrete snapshot and palette. -/
theorem renderTileFromSnapshot_replicates_witness :
    (∀ k : Nat, k % 256 < 256) ∧ (1 : Nat) < TILE_HEIGHT ∧ (2 : Nat) < TILE_WIDTH
    ∧ (0 : Nat) < 2 ∧ (1 : Nat) < 2
    ∧ ((renderTileFromSnapshot (fun k => k % 256) (fun i => i + 7)).length
          = TILE_WIDTH * PIXEL_SCALE * (TILE_HEIGHT * PIXEL_SCALE)
      ∧ (renderTileFromSnapshot (fun k => k % 256) (fun i => i + 7)).getD
          ((2 * 1 + 0) * (TILE_WIDTH * PIXEL_SCALE) + (2 * 2 + 1)) 0
        = (fun i => i + 7) ((fun k => k % 256) (1 * TILE_WIDTH + 2))) :=
  ⟨fun k => Nat.mod_lt k (by decide), by decide, by decide, by decide, by decide,
    renderTileFromSnapshot_replicates (fun k => k % 256) (fun i => i + 7)
      (fun k => Nat.mod_lt k (by decide)) 1 2 0 1
      (by decide) (by decide) (by decide) (by decide)⟩

end VideoESP32
